import Mathlib

/-!
A shallow embedding of `src/context.js` (the `Context` class of tleef/context-js).

JavaScript objects are dynamically typed and have reference identity, and the
claims under verification talk about storage sharing, timers and the event
loop, so the embedding is operational:

* `JsV` is the space of JavaScript values that can appear in the fields of a
  context or in a value store (primitives, `Date` objects carrying their epoch
  milliseconds, references into an object heap, and references to contexts).
* `St` is the world state: the list of allocated contexts (a context reference
  is an index into it), the heap of plain objects (an object reference is an
  index into it), the pending `setTimeout` queue, the current clock
  (`Date.now()`), and the counter backing `unique()`.
* Each method of the class becomes a function on `St`; methods that can throw
  return `Except String`, mirroring `throw new Error(...)`.  All argument
  validation happens, as in the source, before any state is touched.
* `EventEmitter` is modelled by the `listeners` field: `parent.on(CANCELLED,
  this.cancel.bind(this))` appends the child's index to the parent's listener
  list, and `emit(CANCELLED)` walks that list in order, invoking `cancel` on
  each registered child; `emits` counts the emissions so that the number of
  notifications observed by an external listener is expressible.
* `setTimeout(cb, t)` appends a timer; `tick` advances the clock and fires all
  due timers in deadline order, each firing being a synchronous `cancel`.
-/

set_option autoImplicit false

/-- The JavaScript values the program manipulates.  `num` is an
integer-valued number, `numFrac` stands for a number that is not an integer
(`Number.isInteger` is false on it), `date t` is a `Date` whose `getTime()`
is `t`, `obj a` is a reference to the plain object at heap address `a`, and
`ctxRef i` is a reference to context number `i`. -/
inductive JsV where
  | undef
  | null
  | bool (b : Bool)
  | num (n : Int)
  | numFrac
  | str (s : String)
  | date (t : Int)
  | obj (a : Nat)
  | ctxRef (i : Nat)
deriving DecidableEq, Repr

/-- JavaScript truthiness: `undefined`, `null`, `false`, `0`, `NaN` and `""`
are falsy, every other value (all objects included) is truthy. -/
def truthy : JsV → Bool
  | .undef => false
  | .null => false
  | .bool b => b
  | .num n => n != 0
  | .numFrac => true
  | .str s => s != ""
  | .date _ => true
  | .obj _ => true
  | .ctxRef _ => true

/-- `parent instanceof Context` -/
def isCtxV : JsV → Bool
  | .ctxRef _ => true
  | _ => false

/-- `deadline instanceof Date` -/
def isDateV : JsV → Bool
  | .date _ => true
  | _ => false

/-- `Number.isInteger(ms)` -/
def isIntV : JsV → Bool
  | .num _ => true
  | _ => false

/-- `type.isString(value)` -/
def isStrV : JsV → Bool
  | .str _ => true
  | _ => false

/-- `values !== Object(values)` is false exactly on object-typed values
(plain objects, `Date`s, `Context` instances); it is true on primitives. -/
def isObjectLike : JsV → Bool
  | .obj _ => true
  | .date _ => true
  | .ctxRef _ => true
  | _ => false

/-- The guard `deadline < ctx.deadline` of `withDeadline`, where the left
operand is known to be a `Date` with time `d`.  Comparing two `Date`s (or a
`Date` with a number) compares the epoch-millisecond values. -/
def jsLt (d : Int) : JsV → Bool
  | .date t => decide (d < t)
  | .num n => decide (d < n)
  | _ => false

/-- A plain JavaScript object: its own enumerable properties in insertion
order.  Objects built by the program never carry duplicate keys. -/
abbrev Obj := List (String × JsV)

/-- A single property assignment `o[k] = v`: overwrite in place the entry for
`k` if one exists (keeping its position, as JavaScript does), otherwise
append the new entry at the end. -/
def setEntry : Obj → String → JsV → Obj
  | [], k, v => [(k, v)]
  | e :: tl, k, v => if e.1 = k then (k, v) :: tl else e :: setEntry tl k v

/-- `Object.assign(target, source)`: assign each property of `source` onto
`target`, in order. -/
def assign (target source : Obj) : Obj :=
  source.foldl (fun acc e => setEntry acc e.1 e.2) target

/-- Property lookup `o[k]`. -/
def lookupO (k : String) (o : Obj) : Option JsV :=
  List.lookup k o

/-- One context object.  `id`, `cancelled`, `deadline` and `values` are the
fields the constructor installs; `extra` holds any other property installed
through the generic `set`; `listeners` are the indices of the contexts whose
bound `cancel` was registered on this context's `CANCELLED` event, in
registration order; `emits` counts how many times `CANCELLED` has been
emitted on this context. -/
structure Context where
  id : JsV
  cancelled : JsV
  deadline : JsV
  values : JsV
  extra : List (String × JsV)
  listeners : List Nat
  emits : Nat
deriving DecidableEq, Repr

/-- Placeholder returned when a context index is out of range; its fields are
`undefined`, which no reachable context has for `cancelled` or `deadline`. -/
def defaultCtx : Context :=
  { id := .undef, cancelled := .undef, deadline := .undef, values := .undef,
    extra := [], listeners := [], emits := 0 }

/-- A pending `setTimeout`: the absolute time at which it fires and the index
of the context whose bound `cancel` is the callback. -/
structure Timer where
  fireAt : Int
  target : Nat
deriving DecidableEq, Repr

/-- The world state. -/
structure St where
  ctxs : List Context
  heap : List Obj
  timers : List Timer
  now : Int
  uid : Nat
deriving DecidableEq, Repr

/-- The context at index `i`. -/
def ctxAt (s : St) (i : Nat) : Context :=
  s.ctxs.getD i defaultCtx

/-- The own enumerable properties of the value `v` (the entries of the heap
object it references; primitives contribute nothing). -/
def objEntries (s : St) (v : JsV) : Obj :=
  match v with
  | .obj a => s.heap.getD a []
  | _ => []

/-- The string produced by the `unique()` id generator on its `n`-th call. -/
def uidStr (n : Nat) : String :=
  "uid-" ++ toString n

/-- The freshly constructed context when a (truthy) parent at index `p` is
supplied: `this.id = parent.id`, `this.cancelled = parent.cancelled`,
`this.deadline = parent.deadline`, `this.values = Object.assign({},
parent.values)` (a fresh object at the next free heap address). -/
def childOf (s : St) (p : Nat) : Context :=
  { id := (ctxAt s p).id, cancelled := (ctxAt s p).cancelled,
    deadline := (ctxAt s p).deadline, values := .obj s.heap.length,
    extra := [], listeners := [], emits := 0 }

/-- `new Context(parent)`.  Throws when `parent` is truthy and not a
`Context`.  With a (truthy) `Context` parent it copies `id`, `cancelled` and
`deadline`, allocates `Object.assign({}, parent.values)` as the new values
object, and registers the new context's bound `cancel` on the parent
(`parent.on(CANCELLED, this.cancel.bind(this))`).  With a falsy argument it
builds a root: fresh `unique()` id, `cancelled = false`, `deadline = null`,
`values = {}`. -/
def newContext (s : St) (parent : JsV) : Except String (St × Nat) :=
  if truthy parent && !(isCtxV parent) then .error "parent must be a Context"
  else
    match parent with
    | .ctxRef p =>
      let pc := ctxAt s p
      let c := childOf s p
      let i := s.ctxs.length
      .ok ({ s with
              ctxs := (s.ctxs.set p { pc with listeners := pc.listeners ++ [i] }) ++ [c],
              heap := s.heap ++ [assign [] (objEntries s pc.values)] }, i)
    | _ =>
      let c : Context :=
        { id := .str (uidStr s.uid), cancelled := .bool false, deadline := .null,
          values := .obj s.heap.length, extra := [], listeners := [], emits := 0 }
      .ok ({ s with
              ctxs := s.ctxs ++ [c],
              heap := s.heap ++ [[]],
              uid := s.uid + 1 }, s.ctxs.length)

/-- The property assignment `this[key] = value` on a context: the four named
fields are stored in their slots, any other key lands among the dynamic
properties. -/
def setField (c : Context) (key : String) (v : JsV) : Context :=
  if key = "id" then { c with id := v }
  else if key = "cancelled" then { c with cancelled := v }
  else if key = "deadline" then { c with deadline := v }
  else if key = "values" then { c with values := v }
  else { c with extra := setEntry c.extra key v }

/-- `set(key, value)`: throws when `key === 'id'` and `value` is not a
string; otherwise assigns `this[key] = value` and returns `this` (the same
context index — no new context is created). -/
def Context.set (s : St) (i : Nat) (key : String) (v : JsV) :
    Except String (St × Nat) :=
  if key = "id" && !(isStrV v) then .error "id must be a String"
  else .ok ({ s with ctxs := s.ctxs.set i (setField (ctxAt s i) key v) }, i)

/-- The state change `this.set('cancelled', true)` performs on the fields of
context `i`, together with the bookkeeping `emits` increment of the
`this.emit(CANCELLED)` that follows it. -/
def bump (c : Context) : Context :=
  { c with cancelled := .bool true, emits := c.emits + 1 }

/-- `this.set('cancelled', true)` on context `i` (plus the emission count). -/
def cancelStep (s : St) (i : Nat) : St :=
  { s with ctxs := s.ctxs.set i (bump (ctxAt s i)) }

/-- `cancel()` with explicit fuel: `this.set('cancelled', true);
this.emit(CANCELLED)`.  The emission synchronously invokes, in registration
order, the bound `cancel` of every context registered as a listener.  The
fuel only serves Lean's termination checker; `cancel` below supplies enough
fuel for any state whose listener edges go to younger (larger-index)
contexts, which every reachable state satisfies. -/
def cancelF : Nat → St → Nat → St
  | 0, s, _ => s
  | fuel + 1, s, i => (ctxAt s i).listeners.foldl (cancelF fuel) (cancelStep s i)

/-- `cancel()` on context `i`. -/
def Context.cancel (s : St) (i : Nat) : St :=
  cancelF s.ctxs.length s i

/-- `withDeadline(deadline)`.  Throws when the argument is not a `Date`.
Otherwise derives `ctx = new Context(this)`; if `!ctx.deadline || deadline <
ctx.deadline` it installs the supplied deadline on `ctx` and schedules
`setTimeout(this.cancel.bind(this), Math.max(ctx.deadline.getTime() -
Date.now(), 0))` — the callback targets the receiver `i`, not `ctx`. -/
def Context.withDeadline (s : St) (i : Nat) (deadline : JsV) :
    Except String (St × Nat) :=
  match deadline with
  | .date d =>
    match newContext s (.ctxRef i) with
    | .ok (s1, j) =>
      let cj := ctxAt s1 j
      if !(truthy cj.deadline) || jsLt d cj.deadline then
        let s2 := { s1 with ctxs := s1.ctxs.set j { cj with deadline := .date d } }
        let timeout := max (d - s2.now) 0
        .ok ({ s2 with timers := s2.timers ++ [⟨s2.now + timeout, i⟩] }, j)
      else .ok (s1, j)
    | .error e => .error e
  | _ => .error "deadline must be a Date"

/-- `withTimeout(ms)`.  Throws when `ms` is not an integer; otherwise
`return this.withDeadline(new Date(Date.now() + ms))`. -/
def Context.withTimeout (s : St) (i : Nat) (ms : JsV) :
    Except String (St × Nat) :=
  match ms with
  | .num n => Context.withDeadline s i (.date (s.now + n))
  | _ => .error "ms must be an Integer"

/-- `withValues(values)`.  Throws when `values !== Object(values)`; otherwise
derives `ctx = new Context(this)` and sets `ctx.values = Object.assign({},
ctx.values, values)` — a freshly allocated object. -/
def Context.withValues (s : St) (i : Nat) (values : JsV) :
    Except String (St × Nat) :=
  if !(isObjectLike values) then .error "values must be an Object"
  else
    match newContext s (.ctxRef i) with
    | .ok (s1, j) =>
      let cj := ctxAt s1 j
      let merged := assign (assign [] (objEntries s1 cj.values)) (objEntries s1 values)
      .ok ({ s1 with
              heap := s1.heap ++ [merged],
              ctxs := s1.ctxs.set j { cj with values := .obj s1.heap.length } }, j)
    | .error e => .error e

/-- A caller-side object literal: allocate a fresh plain object on the heap
(as `const m = {...}` does) and return its address. -/
def allocObj (s : St) (o : Obj) : St × Nat :=
  ({ s with heap := s.heap ++ [o] }, s.heap.length)

/-- A caller-side property write `o[k] = v` on the heap object at address
`a` (callers hold references into the heap through `ctx.values`). -/
def heapWrite (s : St) (a : Nat) (k : String) (v : JsV) : St :=
  { s with heap := s.heap.set a (setEntry (s.heap.getD a []) k v) }

/-- Advance the clock by `d` milliseconds and run the event loop: every
pending timer now due fires, in deadline order, each firing being a
synchronous `cancel` of its target. -/
def tick (s : St) (d : Nat) : St :=
  ((s.timers.filter (fun t => decide (t.fireAt ≤ s.now + d))).insertionSort
      (fun a b => a.fireAt ≤ b.fireAt)).foldl
    (fun st t => Context.cancel st t.target)
    { s with
        now := s.now + d,
        timers := s.timers.filter (fun t => !(decide (t.fireAt ≤ s.now + d))) }

/-- Extract the result of a non-throwing call. -/
def getOk (r : Except String (St × Nat)) (d : St × Nat) : St × Nat :=
  match r with
  | .ok p => p
  | .error _ => d

/-- The empty world, before any context exists, at clock 0. -/
def initSt : St :=
  { ctxs := [], heap := [], timers := [], now := 0, uid := 0 }

/-- `new Context()` (never throws). -/
def newRoot (s : St) : St × Nat :=
  getOk (newContext s .undef) (s, 0)

/-- `new Context(parentCtx)` with an actual context argument (never
throws). -/
def derive (s : St) (i : Nat) : St × Nat :=
  getOk (newContext s (.ctxRef i)) (s, 0)

/-- `ctx.withDeadline(new Date(d))` (never throws). -/
def runWD (s : St) (i : Nat) (d : Int) : St × Nat :=
  getOk (Context.withDeadline s i (.date d)) (s, 0)

/-- `ctx.withTimeout(n)` with an integer argument (never throws). -/
def runWT (s : St) (i : Nat) (n : Int) : St × Nat :=
  getOk (Context.withTimeout s i (.num n)) (s, 0)

/-- `ctx.withValues({...})` with an object-literal argument: allocate the
literal, then call `withValues` (never throws). -/
def runWV (s : St) (i : Nat) (o : Obj) : St × Nat :=
  let (s1, a) := allocObj s o
  getOk (Context.withValues s1 i (.obj a)) (s1, 0)

/-- `ctx.set(key, value)`, keeping the old state if the call throws. -/
def runSet (s : St) (i : Nat) (key : String) (v : JsV) : St :=
  (getOk (Context.set s i key v) (s, i)).1

/-- The operations a caller can perform on the public interface, the generic
`set` excepted (the amended monotonicity claim excludes it): constructing
roots and children, the three derivation methods, `cancel`, the passage of
time, and caller-side writes into value objects. -/
inductive Op where
  | mkRoot
  | mkChild (p : Nat)
  | opDeadline (p : Nat) (d : Int)
  | opTimeout (p : Nat) (n : Int)
  | opValues (p : Nat) (o : Obj)
  | opCancel (i : Nat)
  | opTick (d : Nat)
  | opWrite (a : Nat) (k : String) (v : JsV)
deriving Repr

/-- Execute one operation. -/
def execOp (s : St) : Op → St
  | .mkRoot => (newRoot s).1
  | .mkChild p => (derive s p).1
  | .opDeadline p d => (runWD s p d).1
  | .opTimeout p n => (runWT s p n).1
  | .opValues p o => (runWV s p o).1
  | .opCancel i => Context.cancel s i
  | .opTick d => tick s d
  | .opWrite a k v => heapWrite s a k v

/-- Execute a sequence of operations. -/
def execOps (s : St) (l : List Op) : St :=
  l.foldl execOp s

/-- A derivation step applied to a current context: `new Context(c)`,
`c.withDeadline(...)`, `c.withTimeout(...)` or `c.withValues(...)`, each
yielding the derived context. -/
inductive DOp where
  | dChild
  | dDeadline (d : Int)
  | dTimeout (n : Int)
  | dValues (o : Obj)
deriving Repr

/-- Apply one derivation step to the current (state, context) pair. -/
def dStep (p : St × Nat) : DOp → St × Nat
  | .dChild => derive p.1 p.2
  | .dDeadline d => runWD p.1 p.2 d
  | .dTimeout n => runWT p.1 p.2 n
  | .dValues o => runWV p.1 p.2 o

/-- Apply a chain of derivations. -/
def dRun (p : St × Nat) (l : List DOp) : St × Nat :=
  l.foldl dStep p

/-- A three-context chain built through the public interface: a root, a
child derived from it, and a grandchild derived from the child. -/
def demo3 : St := execOps initSt [.mkRoot, .mkChild 0, .mkChild 1]

/-- A single fresh root context. -/
def demoRoot : St := (newRoot initSt).1

/-- A root context that has been cancelled. -/
def demoCancelled : St := Context.cancel demoRoot 0

/-- `root.withValues({one: 1, two: 2})`. -/
def demoVals : St × Nat := runWV demoRoot 0 [("one", .num 1), ("two", .num 2)]

/-- The literal `{two: "a", three: "b"}` allocated in the world of
`demoVals`, ready to be passed to a second `withValues`. -/
def demoVals2 : St × Nat := allocObj demoVals.1 [("two", .str "a"), ("three", .str "b")]

/-- Reading the attribute `ctx[k]` back from a context (the public getters
plus any property installed by the generic `set`). -/
def getAttr (c : Context) (k : String) : JsV :=
  if k = "id" then c.id
  else if k = "cancelled" then c.cancelled
  else if k = "deadline" then c.deadline
  else if k = "values" then c.values
  else (List.lookup k c.extra).getD JsV.undef

/-- Did the call throw? -/
def isErr (r : Except String (St × Nat)) : Bool :=
  match r with
  | .error _ => true
  | .ok _ => false

/-- The caller-side read `ctx.values[k]`. -/
def valLookup (s : St) (i : Nat) (k : String) : Option JsV :=
  lookupO k (objEntries s (ctxAt s i).values)

/-- The caller-side read `ctx.values[k1][k2]` (through a nested object). -/
def nestedLookup (s : St) (i : Nat) (k1 k2 : String) : Option JsV :=
  match valLookup s i k1 with
  | some (.obj b) => lookupO k2 (s.heap.getD b [])
  | _ => none

/-- The heap address of the object stored at `ctx.values[k]`. -/
def refAt (s : St) (i : Nat) (k : String) : Nat :=
  match valLookup s i k with
  | some (.obj b) => b
  | _ => 0

/-- `root.withTimeout(n)` on a fresh root in a fresh world. -/
def demoWT (n : Int) : St × Nat := runWT demoRoot 0 n

/-- `root.withDeadline(new Date(d))` on a fresh root in a fresh world. -/
def demoWD (d : Int) : St × Nat := runWD demoRoot 0 d

/-- The setup for the value-sharing observation: a root; the caller builds
`inner = {x: 1}` and `arg = {a: inner}`; `a = root.withValues(arg)` is
context 1; `b = new Context(a)` is context 2. -/
def c5pre : St :=
  let r := newRoot initSt
  let inner := allocObj r.1 [("x", .num 1)]
  let arg := allocObj inner.1 [("a", .obj inner.2)]
  let a := getOk (Context.withValues arg.1 r.2 (.obj arg.2)) (arg.1, 0)
  (derive a.1 a.2).1

/-- The caller mutates the nested object reached through context 2's values
(`b.values.a.x = 2`). -/
def c5post : St := heapWrite c5pre (refAt c5pre 2 "a") "x" (.num 2)

/-- `null` or a `Date`: the shape every reachable context's `deadline` field
has (absent is `null`, present is a `Date` with the given time). -/
def dlJs : Option Int → JsV
  | none => .null
  | some t => .date t

/-- `x || y` on option values: the first lookup that hits. -/
def orO (x y : Option JsV) : Option JsV :=
  match x with
  | some v => some v
  | none => y

/-- The root context of the timeout scenario after the derivation
registered the derived context (index 1) as its listener. -/
def wtRoot : Context :=
  { id := .str (uidStr 0), cancelled := .bool false, deadline := .null,
    values := .obj 0, extra := [], listeners := [1], emits := 0 }

/-- The derived context of the timeout scenario, carrying the adopted
deadline `d`. -/
def wtChild (d : Int) : Context :=
  { id := .str (uidStr 0), cancelled := .bool false, deadline := .date d,
    values := .obj 1, extra := [], listeners := [], emits := 0 }

/-- The world after `root.withTimeout/withDeadline` on a fresh root adopted
deadline `d` and scheduled the one-shot timer at absolute time `fire`
targeting the root (index 0). -/
def wdSt (d fire : Int) : St :=
  { ctxs := [wtRoot, wtChild d], heap := [[], []],
    timers := [⟨fire, 0⟩], now := 0, uid := 1 }

/-! ### List access toolkit -/

theorem getD_append_lt {α : Type} (l l' : List α) (i : Nat) (d : α)
    (h : i < l.length) : (l ++ l').getD i d = l.getD i d := by
  simp [List.getD, List.getElem?_append, h]

theorem getD_append_len {α : Type} (l : List α) (x d : α) :
    (l ++ [x]).getD l.length d = x := by
  simp [List.getD]

theorem getD_set_self {α : Type} (l : List α) (i : Nat) (x d : α)
    (h : i < l.length) : (l.set i x).getD i d = x := by
  simp [List.getD, List.getElem?_set_self', h]

theorem getD_set_ne {α : Type} (l : List α) (i j : Nat) (x d : α)
    (h : i ≠ j) : (l.set j x).getD i d = l.getD i d := by
  simp [List.getD, List.getElem?_set_ne (Ne.symm h)]

theorem getD_of_le {α : Type} (l : List α) (i : Nat) (d : α)
    (h : l.length ≤ i) : l.getD i d = d := by
  simp [List.getD, List.getElem?_eq_none h]

theorem foldl_pres {α : Type} (f : St → α → St) (P : St → Prop)
    (hf : ∀ s a, P s → P (f s a)) :
    ∀ (l : List α) (s : St), P s → P (l.foldl f s) := by
  intro l
  induction l with
  | nil => intro s hs; exact hs
  | cons a tl ih => intro s hs; exact ih (f s a) (hf s a hs)

/-! ### Cancellation propagation -/

theorem ctxAt_eq (s : St) (i : Nat) : ctxAt s i = s.ctxs.getD i defaultCtx := rfl

theorem cancelF_succ (f : Nat) (s : St) (i : Nat) :
    cancelF (f + 1) s i = (ctxAt s i).listeners.foldl (cancelF f) (cancelStep s i) := rfl

theorem cancelStep_ctxs (s : St) (i : Nat) :
    (cancelStep s i).ctxs = s.ctxs.set i (bump (ctxAt s i)) := rfl

theorem ctxAt_cancelStep_self (s : St) (i : Nat) (hi : i < s.ctxs.length) :
    ctxAt (cancelStep s i) i = bump (ctxAt s i) := by
  rw [ctxAt_eq, cancelStep_ctxs, getD_set_self _ _ _ _ hi]

theorem ctxAt_cancelStep_ne (s : St) (i k : Nat) (h : k ≠ i) :
    ctxAt (cancelStep s i) k = ctxAt s k := by
  rw [ctxAt_eq, cancelStep_ctxs, getD_set_ne _ _ _ _ _ h, ctxAt_eq]

theorem ctxAt_cancelStep_oob (s : St) (i : Nat) (hi : s.ctxs.length ≤ i) :
    ctxAt (cancelStep s i) i = ctxAt s i := by
  rw [ctxAt_eq, cancelStep_ctxs, List.set_eq_of_length_le hi, ctxAt_eq]

theorem cancelStep_cancelled (s : St) (i k : Nat)
    (hk : (ctxAt s k).cancelled = .bool true) :
    (ctxAt (cancelStep s i) k).cancelled = .bool true := by
  by_cases hik : k = i
  · subst hik
    by_cases hlen : k < s.ctxs.length
    · rw [ctxAt_cancelStep_self s k hlen]; rfl
    · rw [ctxAt_cancelStep_oob s k (Nat.le_of_not_lt hlen)]; exact hk
  · rw [ctxAt_cancelStep_ne s i k hik]; exact hk

theorem cancelStep_listeners (s : St) (i k : Nat) :
    (ctxAt (cancelStep s i) k).listeners = (ctxAt s k).listeners := by
  by_cases hik : k = i
  · subst hik
    by_cases hlen : k < s.ctxs.length
    · rw [ctxAt_cancelStep_self s k hlen]; rfl
    · rw [ctxAt_cancelStep_oob s k (Nat.le_of_not_lt hlen)]
  · rw [ctxAt_cancelStep_ne s i k hik]

theorem cancelF_length (fuel : Nat) :
    ∀ (s : St) (i : Nat), (cancelF fuel s i).ctxs.length = s.ctxs.length := by
  induction fuel with
  | zero => intro s i; rfl
  | succ f ih =>
    intro s i
    rw [cancelF_succ]
    apply foldl_pres (cancelF f) (fun st => st.ctxs.length = s.ctxs.length)
    · intro st a hst
      show (cancelF f st a).ctxs.length = s.ctxs.length
      rw [ih st a]; exact hst
    · show (cancelStep s i).ctxs.length = s.ctxs.length
      rw [cancelStep_ctxs]
      exact List.length_set s.ctxs i _

theorem cancelF_mono (fuel : Nat) :
    ∀ (s : St) (i k : Nat), (ctxAt s k).cancelled = .bool true →
      (ctxAt (cancelF fuel s i) k).cancelled = .bool true := by
  induction fuel with
  | zero => intro s i k hk; exact hk
  | succ f ih =>
    intro s i k hk
    rw [cancelF_succ]
    apply foldl_pres (cancelF f) (fun st => (ctxAt st k).cancelled = .bool true)
    · intro st a hst
      show (ctxAt (cancelF f st a) k).cancelled = .bool true
      exact ih st a k hst
    · show (ctxAt (cancelStep s i) k).cancelled = .bool true
      exact cancelStep_cancelled s i k hk

theorem cancelF_listenersEq (fuel : Nat) :
    ∀ (s : St) (i k : Nat),
      (ctxAt (cancelF fuel s i) k).listeners = (ctxAt s k).listeners := by
  induction fuel with
  | zero => intro s i k; rfl
  | succ f ih =>
    intro s i k
    rw [cancelF_succ]
    apply foldl_pres (cancelF f)
      (fun st => (ctxAt st k).listeners = (ctxAt s k).listeners)
    · intro st a hst
      show (ctxAt (cancelF f st a) k).listeners = (ctxAt s k).listeners
      rw [ih st a k]; exact hst
    · show (ctxAt (cancelStep s i) k).listeners = (ctxAt s k).listeners
      exact cancelStep_listeners s i k

theorem cancelF_self (fuel : Nat) (s : St) (i : Nat)
    (hf : 0 < fuel) (hi : i < s.ctxs.length) :
    (ctxAt (cancelF fuel s i) i).cancelled = .bool true := by
  obtain ⟨f, rfl⟩ : ∃ f, fuel = f + 1 := ⟨fuel - 1, by omega⟩
  rw [cancelF_succ]
  apply foldl_pres (cancelF f) (fun st => (ctxAt st i).cancelled = .bool true)
  · intro st a hst
    show (ctxAt (cancelF f st a) i).cancelled = .bool true
    exact cancelF_mono f st a i hst
  · show (ctxAt (cancelStep s i) i).cancelled = .bool true
    rw [ctxAt_cancelStep_self s i hi]; rfl

theorem foldl_cancel_mem (f : Nat) (hf : 0 < f) :
    ∀ (l : List Nat) (s : St) (j : Nat), j ∈ l → j < s.ctxs.length →
      (ctxAt (l.foldl (cancelF f) s) j).cancelled = .bool true := by
  intro l
  induction l with
  | nil => intro s j hj _; exact absurd hj (List.not_mem_nil j)
  | cons a tl ih =>
    intro s j hj hlen
    rcases List.mem_cons.mp hj with h | h
    · subst h
      rw [List.foldl_cons]
      apply foldl_pres (cancelF f) (fun st => (ctxAt st j).cancelled = .bool true)
      · intro st b hst
        show (ctxAt (cancelF f st b) j).cancelled = .bool true
        exact cancelF_mono f st b j hst
      · show (ctxAt (cancelF f s j) j).cancelled = .bool true
        exact cancelF_self f s j hf hlen
    · rw [List.foldl_cons]
      exact ih (cancelF f s a) j h (by rw [cancelF_length]; exact hlen)

theorem cancelF_child (fuel : Nat) (s : St) (i j : Nat)
    (hf : 2 ≤ fuel) (hj : j ∈ (ctxAt s i).listeners) (hlen : j < s.ctxs.length) :
    (ctxAt (cancelF fuel s i) j).cancelled = .bool true := by
  obtain ⟨f, rfl⟩ : ∃ f, fuel = f + 1 := ⟨fuel - 1, by omega⟩
  rw [cancelF_succ]
  apply foldl_cancel_mem f (by omega) (ctxAt s i).listeners _ j hj
  show j < (cancelStep s i).ctxs.length
  rw [cancelStep_ctxs, List.length_set]
  exact hlen

theorem foldl_cancel_mem2 (f : Nat) (hf : 2 ≤ f) :
    ∀ (l : List Nat) (s : St) (j k : Nat), j ∈ l →
      k ∈ (ctxAt s j).listeners → k < s.ctxs.length →
      (ctxAt (l.foldl (cancelF f) s) k).cancelled = .bool true := by
  intro l
  induction l with
  | nil => intro s j k hj _ _; exact absurd hj (List.not_mem_nil j)
  | cons a tl ih =>
    intro s j k hj hk hlen
    rcases List.mem_cons.mp hj with h | h
    · subst h
      rw [List.foldl_cons]
      apply foldl_pres (cancelF f) (fun st => (ctxAt st k).cancelled = .bool true)
      · intro st b hst
        show (ctxAt (cancelF f st b) k).cancelled = .bool true
        exact cancelF_mono f st b k hst
      · show (ctxAt (cancelF f s j) k).cancelled = .bool true
        exact cancelF_child f s j k hf hk hlen
    · rw [List.foldl_cons]
      exact ih (cancelF f s a) j k h
        (by rw [cancelF_listenersEq]; exact hk)
        (by rw [cancelF_length]; exact hlen)

theorem cancelF_grand (fuel : Nat) (s : St) (i j k : Nat)
    (hf : 3 ≤ fuel) (hj : j ∈ (ctxAt s i).listeners)
    (hk : k ∈ (ctxAt s j).listeners) (hlen : k < s.ctxs.length) :
    (ctxAt (cancelF fuel s i) k).cancelled = .bool true := by
  obtain ⟨f, rfl⟩ : ∃ f, fuel = f + 1 := ⟨fuel - 1, by omega⟩
  rw [cancelF_succ]
  apply foldl_cancel_mem2 f (by omega) (ctxAt s i).listeners _ j k hj
  · rw [cancelStep_listeners]; exact hk
  · show k < (cancelStep s i).ctxs.length
    rw [cancelStep_ctxs, List.length_set]
    exact hlen

/-! ### Derivation characterizations -/

theorem derive_snd (s : St) (p : Nat) : (derive s p).2 = s.ctxs.length := rfl

theorem derive_fst_ctxs (s : St) (p : Nat) :
    (derive s p).1.ctxs =
      (s.ctxs.set p
        { ctxAt s p with listeners := (ctxAt s p).listeners ++ [s.ctxs.length] })
      ++ [childOf s p] := rfl

theorem derive_fst_heap (s : St) (p : Nat) :
    (derive s p).1.heap = s.heap ++ [assign [] (objEntries s (ctxAt s p).values)] := rfl

theorem derive_fst_timers (s : St) (p : Nat) : (derive s p).1.timers = s.timers := rfl

theorem derive_fst_now (s : St) (p : Nat) : (derive s p).1.now = s.now := rfl

theorem getD_append_lenEq {α : Type} (l : List α) (x d : α) (n : Nat)
    (h : n = l.length) : (l ++ [x]).getD n d = x := by
  subst h; exact getD_append_len l x d

theorem ctxAt_derive_new (s : St) (p : Nat) :
    ctxAt (derive s p).1 (derive s p).2 = childOf s p := by
  rw [derive_snd, ctxAt_eq, derive_fst_ctxs]
  exact getD_append_lenEq _ _ _ _ (by rw [List.length_set])

theorem ctxAt_derive_parent (s : St) (p : Nat) (hp : p < s.ctxs.length) :
    ctxAt (derive s p).1 p =
      { ctxAt s p with listeners := (ctxAt s p).listeners ++ [s.ctxs.length] } := by
  rw [ctxAt_eq, derive_fst_ctxs,
    getD_append_lt _ _ _ _ (by rw [List.length_set]; exact hp),
    getD_set_self _ _ _ _ hp]

/-! ### C1: transitive, synchronous cancellation propagation -/

/-- C1: in any state whose listener registrations point to later-created
contexts (as every state reachable through the public interface does), if
`c` was derived from `p` and `g` from `c` — derivation by any operation
registers the new context's bound `cancel` on its parent, which is the third
conjunct — then `p.cancel()` leaves both `c` and `g` with `cancelled =
true` by the time it returns.  The notification walk is synchronous and in
registration order by the definition of `cancelF`, which folds over the
listener list in order. -/
theorem cancel_reaches_child_and_grandchild (s : St) (p c g : Nat)
    (hWF : ∀ i, i < s.ctxs.length →
      ∀ j ∈ (ctxAt s i).listeners, i < j ∧ j < s.ctxs.length)
    (hp : p < s.ctxs.length)
    (hc : c ∈ (ctxAt s p).listeners) (hg : g ∈ (ctxAt s c).listeners) :
    (ctxAt (Context.cancel s p) c).cancelled = .bool true ∧
    (ctxAt (Context.cancel s p) g).cancelled = .bool true ∧
    (derive s p).2 ∈ (ctxAt (derive s p).1 p).listeners := by
  have hcb := hWF p hp c hc
  have hgb := hWF c hcb.2 g hg
  refine ⟨cancelF_child _ s p c (by omega) hc hcb.2,
          cancelF_grand _ s p c g (by omega) hc hg hgb.2, ?_⟩
  rw [ctxAt_derive_parent s p hp, derive_snd]
  simp

/-- Witness for C1 on the concrete chain root → child → grandchild. -/
theorem cancel_reaches_child_and_grandchild_witness :
    ((∀ i, i < demo3.ctxs.length →
        ∀ j ∈ (ctxAt demo3 i).listeners, i < j ∧ j < demo3.ctxs.length) ∧
      0 < demo3.ctxs.length ∧
      1 ∈ (ctxAt demo3 0).listeners ∧ 2 ∈ (ctxAt demo3 1).listeners) ∧
    ((ctxAt (Context.cancel demo3 0) 1).cancelled = .bool true ∧
      (ctxAt (Context.cancel demo3 0) 2).cancelled = .bool true ∧
      (derive demo3 0).2 ∈ (ctxAt (derive demo3 0).1 0).listeners) :=
  ⟨⟨by decide, by decide, by decide, by decide⟩,
    cancel_reaches_child_and_grandchild demo3 0 1 2
      (by decide) (by decide) (by decide) (by decide)⟩

/-! ### withDeadline / withValues / withTimeout characterizations -/

theorem derive_fst_len (s : St) (p : Nat) :
    (derive s p).1.ctxs.length = s.ctxs.length + 1 := by
  rw [derive_fst_ctxs]; simp

theorem withTimeout_num (s : St) (i : Nat) (n : Int) :
    Context.withTimeout s i (.num n) = Context.withDeadline s i (.date (s.now + n)) := rfl

theorem runWT_eq (s : St) (i : Nat) (n : Int) : runWT s i n = runWD s i (s.now + n) := rfl

/-- The guard of `withDeadline`: the freshly derived context's deadline is the
receiver's, so the supplied date `d` is adopted exactly when the receiver has
no (truthy) deadline or `d` is strictly earlier. -/
def adopts (s : St) (i : Nat) (d : Int) : Bool :=
  !(truthy (childOf s i).deadline) || jsLt d (childOf s i).deadline

theorem withDeadline_eq (s : St) (i : Nat) (d : Int) :
    Context.withDeadline s i (.date d) =
      if adopts s i d then
        .ok ({ (derive s i).1 with
                ctxs := (derive s i).1.ctxs.set (derive s i).2
                  ({ childOf s i with deadline := JsV.date d }),
                timers := (derive s i).1.timers ++
                  [⟨(derive s i).1.now + max (d - (derive s i).1.now) 0, i⟩] },
              (derive s i).2)
      else .ok (derive s i) := by
  rw [adopts, ← ctxAt_derive_new s i]
  rfl

theorem withValues_obj_eq (s : St) (i b : Nat) :
    Context.withValues s i (.obj b) =
      .ok ({ (derive s i).1 with
              heap := (derive s i).1.heap ++
                [assign
                  (assign [] (objEntries (derive s i).1
                    (ctxAt (derive s i).1 (derive s i).2).values))
                  (objEntries (derive s i).1 (.obj b))],
              ctxs := (derive s i).1.ctxs.set (derive s i).2
                ({ ctxAt (derive s i).1 (derive s i).2 with
                    values := .obj (derive s i).1.heap.length }) },
            (derive s i).2) := rfl

theorem runWD_snd (s : St) (i : Nat) (d : Int) : (runWD s i d).2 = s.ctxs.length := by
  unfold runWD
  rw [withDeadline_eq]
  split <;> rfl

theorem ctxAt_runWD_new (s : St) (i : Nat) (d : Int) :
    ctxAt (runWD s i d).1 s.ctxs.length =
      if adopts s i d then { childOf s i with deadline := JsV.date d }
      else childOf s i := by
  unfold runWD
  rw [withDeadline_eq]
  cases hcond : adopts s i d
  · simp only [Bool.false_eq_true, if_false]
    exact ctxAt_derive_new s i
  · simp only [if_true, getOk]
    rw [ctxAt_eq]
    show ((derive s i).1.ctxs.set (derive s i).2 _).getD s.ctxs.length defaultCtx = _
    rw [derive_snd, getD_set_self]
    rw [derive_fst_len]
    omega

theorem runWD_timers (s : St) (i : Nat) (d : Int) :
    (runWD s i d).1.timers =
      s.timers ++
        (if adopts s i d then [⟨s.now + max (d - s.now) 0, i⟩] else []) := by
  unfold runWD
  rw [withDeadline_eq]
  cases hcond : adopts s i d
  · simp only [Bool.false_eq_true, if_false]
    show (derive s i).1.timers = s.timers ++ []
    rw [derive_fst_timers]
    simp
  · simp only [if_true, getOk]
    rfl

/-! ### C2: deadline arbitration -/

theorem childOf_deadline (s : St) (p : Nat) :
    (childOf s p).deadline = (ctxAt s p).deadline := rfl

theorem adopts_eq (s : St) (i : Nat) (d : Int) (d? : Option Int)
    (hd : (ctxAt s i).deadline = dlJs d?) :
    adopts s i d = (d?.elim true (fun t0 => decide (d < t0))) := by
  unfold adopts
  rw [childOf_deadline, hd]
  cases d? with
  | none => rfl
  | some t0 => rfl

theorem runWD_deadline_step (s : St) (i : Nat) (d? : Option Int) (t : Int)
    (hd : (ctxAt s i).deadline = dlJs d?) :
    (ctxAt (runWD s i t).1 (runWD s i t).2).deadline =
      .date (d?.elim t (fun t0 => min t0 t)) := by
  rw [runWD_snd, ctxAt_runWD_new, adopts_eq s i t d? hd]
  cases d? with
  | none => rfl
  | some t0 =>
    simp only [Option.elim]
    by_cases h : t < t0
    · rw [if_pos (by simpa using h)]
      have : min t0 t = t := by omega
      rw [this]
    · rw [if_neg (by simpa using h)]
      rw [childOf_deadline, hd]
      have : min t0 t = t0 := by omega
      rw [this]
      rfl

/-- C2 (amended): for a context whose current deadline is `d?` (absent or a
date), `withDeadline(t1)` followed by `withDeadline(t2)` on the result
yields effective deadline `min(d?, t1, t2)` — which is `min(t1, t2)`, in
either order, exactly when the receiver carried no earlier deadline; the
supplied deadline is adopted exactly when the derived context has no
deadline or the supplied one is strictly earlier, a timer is scheduled
exactly on adoption, and a non-adopted deadline is discarded silently (the
call still succeeds). -/
theorem withDeadline_min_wins (s : St) (i : Nat) (d? : Option Int) (t1 t2 : Int)
    (hd : (ctxAt s i).deadline = dlJs d?) :
    (ctxAt (runWD (runWD s i t1).1 (runWD s i t1).2 t2).1
        (runWD (runWD s i t1).1 (runWD s i t1).2 t2).2).deadline =
      .date (d?.elim (min t1 t2) (fun t0 => min t0 (min t1 t2))) ∧
    isErr (Context.withDeadline s i (.date t1)) = false ∧
    (adopts s i t1 = true ↔ d? = none ∨ ∃ t0, d? = some t0 ∧ t1 < t0) ∧
    (runWD s i t1).1.timers =
      s.timers ++ (if adopts s i t1 then [⟨s.now + max (t1 - s.now) 0, i⟩] else []) := by
  have h1 := runWD_deadline_step s i d? t1 hd
  refine ⟨?_, ?_, ?_, runWD_timers s i t1⟩
  · have h2 := runWD_deadline_step (runWD s i t1).1 (runWD s i t1).2
      (some (d?.elim t1 (fun t0 => min t0 t1))) t2 (by rw [h1]; rfl)
    rw [h2]
    cases d? with
    | none => simp only [Option.elim]
    | some t0 =>
      simp only [Option.elim]
      have : min (min t0 t1) t2 = min t0 (min t1 t2) := by omega
      rw [this]
  · rw [withDeadline_eq]
    split <;> rfl
  · rw [adopts_eq s i t1 d? hd]
    cases d? with
    | none => simp
    | some t0 => simp

/-- Witness for C2 on a fresh root (no pre-existing deadline) with
`t1 = 20`, `t2 = 10`. -/
theorem withDeadline_min_wins_witness :
    (ctxAt demoRoot 0).deadline = dlJs none ∧
    ((ctxAt (runWD (runWD demoRoot 0 20).1 (runWD demoRoot 0 20).2 10).1
        (runWD (runWD demoRoot 0 20).1 (runWD demoRoot 0 20).2 10).2).deadline =
      .date ((none : Option Int).elim (min 20 10) (fun t0 => min t0 (min 20 10))) ∧
    isErr (Context.withDeadline demoRoot 0 (.date 20)) = false ∧
    (adopts demoRoot 0 20 = true ↔ (none : Option Int) = none ∨
      ∃ t0, (none : Option Int) = some t0 ∧ 20 < t0) ∧
    (runWD demoRoot 0 20).1.timers =
      demoRoot.timers ++
        (if adopts demoRoot 0 20 then [⟨demoRoot.now + max (20 - demoRoot.now) 0, 0⟩] else [])) :=
  ⟨by decide, withDeadline_min_wins demoRoot 0 none 20 10 (by decide)⟩

/-- C2 as literally stated is false: a context that already carries an
earlier deadline keeps it, so the chain does not end at `min(t1, t2)`.
Here the receiver has deadline 0; `withDeadline(10)` then `withDeadline(20)`
ends with deadline 0, not `min(10, 20) = 10`. -/
theorem withDeadline_min_wins_cex :
    (ctxAt
        (runWD (runWD (runWD demoRoot 0 0).1 (runWD demoRoot 0 0).2 10).1
          (runWD (runWD demoRoot 0 0).1 (runWD demoRoot 0 0).2 10).2 20).1
        (runWD (runWD (runWD demoRoot 0 0).1 (runWD demoRoot 0 0).2 10).1
          (runWD (runWD demoRoot 0 0).1 (runWD demoRoot 0 0).2 10).2 20).2).deadline
      = JsV.date 0 ∧
    (ctxAt
        (runWD (runWD (runWD demoRoot 0 0).1 (runWD demoRoot 0 0).2 10).1
          (runWD (runWD demoRoot 0 0).1 (runWD demoRoot 0 0).2 10).2 20).1
        (runWD (runWD (runWD demoRoot 0 0).1 (runWD demoRoot 0 0).2 10).1
          (runWD (runWD demoRoot 0 0).1 (runWD demoRoot 0 0).2 10).2 20).2).deadline
      ≠ JsV.date (min 10 20) := by
  constructor
  · decide
  · decide

/-! ### C4: identity invariance -/

theorem childOf_id (s : St) (p : Nat) : (childOf s p).id = (ctxAt s p).id := rfl

theorem ctxAt_allocObj (s : St) (o : Obj) (i : Nat) :
    ctxAt (allocObj s o).1 i = ctxAt s i := rfl

theorem runWD_id (s : St) (i : Nat) (d : Int) :
    (ctxAt (runWD s i d).1 (runWD s i d).2).id = (ctxAt s i).id := by
  rw [runWD_snd, ctxAt_runWD_new]
  split <;> rfl

theorem runWV_snd (s : St) (i : Nat) (o : Obj) : (runWV s i o).2 = s.ctxs.length := by
  show (getOk (Context.withValues (allocObj s o).1 i (.obj (allocObj s o).2))
    ((allocObj s o).1, 0)).2 = s.ctxs.length
  rw [withValues_obj_eq]
  rfl

theorem ctxAt_runWV_new (s : St) (i : Nat) (o : Obj) :
    ctxAt (runWV s i o).1 (runWV s i o).2 =
      { childOf (allocObj s o).1 i with
          values := .obj (derive (allocObj s o).1 i).1.heap.length } := by
  show ctxAt (getOk (Context.withValues (allocObj s o).1 i (.obj (allocObj s o).2))
      ((allocObj s o).1, 0)).1
    (getOk (Context.withValues (allocObj s o).1 i (.obj (allocObj s o).2))
      ((allocObj s o).1, 0)).2 = _
  rw [withValues_obj_eq]
  simp only [getOk]
  rw [ctxAt_eq]
  show ((derive (allocObj s o).1 i).1.ctxs.set (derive (allocObj s o).1 i).2 _).getD
    (derive (allocObj s o).1 i).2 defaultCtx = _
  rw [getD_set_self _ _ _ _ (by rw [derive_snd, derive_fst_len]; omega)]
  rw [ctxAt_derive_new]

theorem dStep_id (p : St × Nat) (op : DOp) :
    (ctxAt (dStep p op).1 (dStep p op).2).id = (ctxAt p.1 p.2).id := by
  cases op with
  | dChild => rw [dStep, ctxAt_derive_new, childOf_id]
  | dDeadline d => rw [dStep, runWD_id]
  | dTimeout n => rw [dStep, runWT_eq, runWD_id]
  | dValues o =>
    rw [dStep, ctxAt_runWV_new]
    show (childOf (allocObj p.1 o).1 p.2).id = _
    rw [childOf_id, ctxAt_allocObj]

/-- C4: the `id` attribute is invariant under every chain of derivations
(`new Context(c)`, `withDeadline`, `withTimeout`, `withValues`): the context
produced by any such chain carries exactly the id of the context the chain
started from, so every context in one derivation tree shares the root's id. -/
theorem id_invariant_under_derivation (s : St) (c : Nat) (l : List DOp) :
    (ctxAt (dRun (s, c) l).1 (dRun (s, c) l).2).id = (ctxAt s c).id := by
  suffices h : ∀ (l : List DOp) (p : St × Nat),
      (ctxAt (dRun p l).1 (dRun p l).2).id = (ctxAt p.1 p.2).id from h l (s, c)
  intro l
  induction l with
  | nil => intro p; rfl
  | cons op tl ih =>
    intro p
    show (ctxAt (dRun (dStep p op) tl).1 (dRun (dStep p op) tl).2).id = _
    rw [ih (dStep p op), dStep_id]

/-! ### C3: cancellation monotonicity -/

theorem childOf_cancelled (s : St) (p : Nat) :
    (childOf s p).cancelled = (ctxAt s p).cancelled := rfl

theorem newRoot_snd (s : St) : (newRoot s).2 = s.ctxs.length := rfl

theorem newRoot_fst_ctxs (s : St) :
    (newRoot s).1.ctxs = s.ctxs ++
      [{ id := .str (uidStr s.uid), cancelled := .bool false, deadline := .null,
         values := .obj s.heap.length, extra := [], listeners := [], emits := 0 }] := rfl

theorem newRoot_cancelled (s : St) :
    (ctxAt (newRoot s).1 (newRoot s).2).cancelled = .bool false := by
  rw [ctxAt_eq, newRoot_snd, newRoot_fst_ctxs, getD_append_len]

theorem cancelledTrue_lt (s : St) (i : Nat)
    (h : (ctxAt s i).cancelled = .bool true) : i < s.ctxs.length := by
  by_contra hc
  rw [ctxAt_eq, getD_of_le _ _ _ (Nat.le_of_not_lt hc)] at h
  exact absurd h (by decide)

theorem ctxAt_newRoot_lt (s : St) (i : Nat) (hi : i < s.ctxs.length) :
    ctxAt (newRoot s).1 i = ctxAt s i := by
  rw [ctxAt_eq, newRoot_fst_ctxs, getD_append_lt _ _ _ _ hi, ctxAt_eq]

theorem ctxAt_derive_other (s : St) (p i : Nat) (hi : i < s.ctxs.length)
    (hne : i ≠ p) : ctxAt (derive s p).1 i = ctxAt s i := by
  rw [ctxAt_eq, derive_fst_ctxs,
    getD_append_lt _ _ _ _ (by rw [List.length_set]; exact hi),
    getD_set_ne _ _ _ _ _ hne, ctxAt_eq]

theorem derive_cancelled_lt (s : St) (p i : Nat) (hi : i < s.ctxs.length) :
    (ctxAt (derive s p).1 i).cancelled = (ctxAt s i).cancelled := by
  by_cases hip : i = p
  · subst hip
    rw [ctxAt_derive_parent s i hi]
  · rw [ctxAt_derive_other s p i hi hip]

theorem ctxAt_runWD_lt (s : St) (p : Nat) (d : Int) (i : Nat)
    (hi : i < s.ctxs.length) :
    ctxAt (runWD s p d).1 i = ctxAt (derive s p).1 i := by
  unfold runWD
  rw [withDeadline_eq]
  cases hcond : adopts s p d
  · rfl
  · simp only [if_true, getOk]
    rw [ctxAt_eq]
    show ((derive s p).1.ctxs.set (derive s p).2 _).getD i defaultCtx = _
    rw [getD_set_ne _ _ _ _ _ (by rw [derive_snd]; omega), ctxAt_eq]

theorem ctxAt_runWV_lt (s : St) (p : Nat) (o : Obj) (i : Nat)
    (hi : i < s.ctxs.length) :
    ctxAt (runWV s p o).1 i = ctxAt (derive (allocObj s o).1 p).1 i := by
  show ctxAt (getOk (Context.withValues (allocObj s o).1 p (.obj (allocObj s o).2))
      ((allocObj s o).1, 0)).1 i = _
  rw [withValues_obj_eq]
  simp only [getOk]
  rw [ctxAt_eq]
  show ((derive (allocObj s o).1 p).1.ctxs.set (derive (allocObj s o).1 p).2 _).getD
    i defaultCtx = _
  rw [getD_set_ne _ _ _ _ _ (by rw [derive_snd]; show i ≠ s.ctxs.length; omega), ctxAt_eq]

theorem tick_cancelled_mono (s : St) (d : Nat) (i : Nat)
    (h : (ctxAt s i).cancelled = .bool true) :
    (ctxAt (tick s d) i).cancelled = .bool true := by
  unfold tick
  apply foldl_pres (fun st (t : Timer) => Context.cancel st t.target)
    (fun st => (ctxAt st i).cancelled = .bool true)
  · intro st a hst
    show (ctxAt (cancelF st.ctxs.length st a.target) i).cancelled = .bool true
    exact cancelF_mono _ st a.target i hst
  · exact h

theorem execOp_cancelled_mono (op : Op) (s : St) (i : Nat)
    (h : (ctxAt s i).cancelled = .bool true) :
    (ctxAt (execOp s op) i).cancelled = .bool true := by
  have hi := cancelledTrue_lt s i h
  cases op with
  | mkRoot => show (ctxAt (newRoot s).1 i).cancelled = _; rw [ctxAt_newRoot_lt s i hi]; exact h
  | mkChild p => show (ctxAt (derive s p).1 i).cancelled = _; rw [derive_cancelled_lt s p i hi]; exact h
  | opDeadline p d =>
    show (ctxAt (runWD s p d).1 i).cancelled = _
    rw [ctxAt_runWD_lt s p d i hi, derive_cancelled_lt s p i hi]; exact h
  | opTimeout p n =>
    show (ctxAt (runWT s p n).1 i).cancelled = _
    rw [runWT_eq, ctxAt_runWD_lt s p _ i hi, derive_cancelled_lt s p i hi]; exact h
  | opValues p o =>
    show (ctxAt (runWV s p o).1 i).cancelled = _
    rw [ctxAt_runWV_lt s p o i hi]
    have : i < (allocObj s o).1.ctxs.length := hi
    rw [derive_cancelled_lt (allocObj s o).1 p i this, ctxAt_allocObj]; exact h
  | opCancel j => exact cancelF_mono _ s j i h
  | opTick d => exact tick_cancelled_mono s d i h
  | opWrite a k v => exact h

/-- C3 (amended): under every sequence of constructor, `cancel`,
`withDeadline`, `withTimeout`, `withValues`, clock-tick and caller-side
value-write operations — the generic `set` excluded — `cancelled` is
monotonic: once `true` it stays `true`; a fresh root starts with `cancelled
= false`; and a context derived from a cancelled parent reads `cancelled =
true` immediately at derivation. -/
theorem cancelled_monotonic (ops : List Op) (s : St) (i p : Nat)
    (hi : (ctxAt s i).cancelled = .bool true)
    (hp : (ctxAt s p).cancelled = .bool true) :
    (ctxAt (execOps s ops) i).cancelled = .bool true ∧
    (ctxAt (newRoot s).1 (newRoot s).2).cancelled = .bool false ∧
    (ctxAt (derive s p).1 (derive s p).2).cancelled = .bool true := by
  refine ⟨?_, newRoot_cancelled s, ?_⟩
  · suffices hgen : ∀ (l : List Op) (st : St),
        (ctxAt st i).cancelled = .bool true →
        (ctxAt (execOps st l) i).cancelled = .bool true from hgen ops s hi
    intro l
    induction l with
    | nil => intro st h; exact h
    | cons op tl ih =>
      intro st h
      exact ih (execOp st op) (execOp_cancelled_mono op st i h)
  · rw [ctxAt_derive_new, childOf_cancelled]; exact hp

/-- Witness for C3 (amended) on a cancelled root, running a child
derivation and a clock tick afterwards. -/
theorem cancelled_monotonic_witness :
    ((ctxAt demoCancelled 0).cancelled = .bool true ∧
      (ctxAt demoCancelled 0).cancelled = .bool true) ∧
    ((ctxAt (execOps demoCancelled [.mkChild 0, .opTick 5]) 0).cancelled = .bool true ∧
      (ctxAt (newRoot demoCancelled).1 (newRoot demoCancelled).2).cancelled = .bool false ∧
      (ctxAt (derive demoCancelled 0).1 (derive demoCancelled 0).2).cancelled = .bool true) :=
  ⟨⟨by decide, by decide⟩,
    cancelled_monotonic [.mkChild 0, .opTick 5] demoCancelled 0 0 (by decide) (by decide)⟩

/-- C3 as literally stated — monotonic under *every* sequence of operations
— is false, because the generic `set` is a public operation: after `cancel()`
the call `set('cancelled', false)` makes `cancelled` read `false` again. -/
theorem cancelled_monotonic_cex :
    (ctxAt demoCancelled 0).cancelled = .bool true ∧
    (ctxAt (runSet demoCancelled 0 "cancelled" (.bool false)) 0).cancelled = .bool false := by
  decide


/-! ### C9: the generic setter -/

theorem lookup_cons_key (k a : String) (b : JsV) (tl : Obj) :
    List.lookup k ((a, b) :: tl) = if k = a then some b else List.lookup k tl := by
  by_cases h : k = a
  · rw [if_pos h]
    show (match k == a with | true => some b | false => List.lookup k tl) = some b
    rw [show (k == a) = true from beq_iff_eq.mpr h]
  · rw [if_neg h]
    show (match k == a with | true => some b | false => List.lookup k tl)
      = List.lookup k tl
    rw [show (k == a) = false from beq_eq_false_iff_ne.mpr h]

theorem lookup_setEntry (o : Obj) (k k' : String) (v : JsV) :
    List.lookup k (setEntry o k' v) = if k = k' then some v else List.lookup k o := by
  induction o with
  | nil =>
    show List.lookup k ((k', v) :: []) = _
    rw [lookup_cons_key]
  | cons e tl ih =>
    obtain ⟨a, b⟩ := e
    show List.lookup k (if a = k' then (k', v) :: tl else (a, b) :: setEntry tl k' v) = _
    by_cases he : a = k' <;> by_cases hk : k = k' <;> by_cases hka : k = a <;>
      simp_all [lookup_cons_key]

theorem setField_other (c : Context) (k : String) (v : JsV) (h0 : k ≠ "id")
    (h1 : k ≠ "cancelled") (h2 : k ≠ "deadline") (h3 : k ≠ "values") :
    setField c k v = { c with extra := setEntry c.extra k v } := by
  unfold setField
  rw [if_neg h0, if_neg h1, if_neg h2, if_neg h3]

theorem getAttr_setField_self (c : Context) (k : String) (v : JsV) :
    getAttr (setField c k v) k = v := by
  by_cases h0 : k = "id"
  · subst h0; rfl
  · by_cases h1 : k = "cancelled"
    · subst h1; rfl
    · by_cases h2 : k = "deadline"
      · subst h2; rfl
      · by_cases h3 : k = "values"
        · subst h3; rfl
        · rw [setField_other c k v h0 h1 h2 h3]
          unfold getAttr
          rw [if_neg h0, if_neg h1, if_neg h2, if_neg h3]
          show (List.lookup k (setEntry c.extra k v)).getD .undef = v
          rw [lookup_setEntry, if_pos rfl]
          rfl

theorem set_ok_of_ne_id (s : St) (i : Nat) (k : String) (v : JsV) (hk : k ≠ "id") :
    Context.set s i k v = .ok (runSet s i k v, i) := by
  unfold runSet Context.set
  simp [hk, getOk]

theorem runSet_eq_of_ne_id (s : St) (i : Nat) (k : String) (v : JsV) (hk : k ≠ "id") :
    runSet s i k v = { s with ctxs := s.ctxs.set i (setField (ctxAt s i) k v) } := by
  unfold runSet Context.set
  simp [hk, getOk]

theorem set_ok_id_str (s : St) (i : Nat) (z : String) :
    Context.set s i "id" (.str z) = .ok (runSet s i "id" (.str z), i) := by
  unfold runSet Context.set
  simp [isStrV, getOk]

theorem runSet_eq_id_str (s : St) (i : Nat) (z : String) :
    runSet s i "id" (.str z) =
      { s with ctxs := s.ctxs.set i (setField (ctxAt s i) "id" (.str z)) } := by
  unfold runSet Context.set
  simp [isStrV, getOk]

/-- C9: for every key other than `id` and every value, `set(key, value)`
performs no validation: it succeeds, creates no new context (it returns the
receiver itself, at the same index, with the context count unchanged), and
the attribute reads back as the assigned value.  In particular
`set('cancelled', false)` on a cancelled context makes `cancelled` read
`false` again, and `set('id', z)` succeeds for any string `z`, including one
different from the tree's id — so the generic setter can break the
monotonicity and identity invariants at the public interface. -/
theorem set_is_unchecked (s : St) (i : Nat) (k : String) (v : JsV) (z : String)
    (hk : k ≠ "id") (hi : i < s.ctxs.length) :
    Context.set s i k v = .ok (runSet s i k v, i) ∧
    (runSet s i k v).ctxs.length = s.ctxs.length ∧
    getAttr (ctxAt (runSet s i k v) i) k = v ∧
    (ctxAt (runSet (Context.cancel s i) i "cancelled" (.bool false)) i).cancelled
      = .bool false ∧
    (Context.set s i "id" (.str z) = .ok (runSet s i "id" (.str z), i) ∧
      (ctxAt (runSet s i "id" (.str z)) i).id = .str z) := by
  refine ⟨set_ok_of_ne_id s i k v hk, ?_, ?_, ?_, set_ok_id_str s i z, ?_⟩
  · rw [runSet_eq_of_ne_id s i k v hk]
    exact List.length_set s.ctxs i _
  · rw [runSet_eq_of_ne_id s i k v hk, ctxAt_eq]
    show getAttr ((s.ctxs.set i (setField (ctxAt s i) k v)).getD i defaultCtx) k = v
    rw [getD_set_self _ _ _ _ hi]
    exact getAttr_setField_self (ctxAt s i) k v
  · rw [runSet_eq_of_ne_id (Context.cancel s i) i "cancelled" (.bool false) (by decide),
      ctxAt_eq]
    show (((Context.cancel s i).ctxs.set i
        (setField (ctxAt (Context.cancel s i) i) "cancelled" (.bool false))).getD
      i defaultCtx).cancelled = JsV.bool false
    rw [getD_set_self _ _ _ _ (by
      show i < (cancelF s.ctxs.length s i).ctxs.length
      rw [cancelF_length]; exact hi)]
    rfl
  · rw [runSet_eq_id_str s i z, ctxAt_eq]
    show ((s.ctxs.set i (setField (ctxAt s i) "id" (.str z))).getD i defaultCtx).id
      = JsV.str z
    rw [getD_set_self _ _ _ _ hi]
    rfl

/-- Witness for C9: a fresh root, key `"foo"`, value `7`, and a replacement
id `"other-id"` distinct from the tree's id. -/
theorem set_is_unchecked_witness :
    ("foo" ≠ "id" ∧ 0 < demoRoot.ctxs.length) ∧
    (Context.set demoRoot 0 "foo" (.num 7) = .ok (runSet demoRoot 0 "foo" (.num 7), 0) ∧
      (runSet demoRoot 0 "foo" (.num 7)).ctxs.length = demoRoot.ctxs.length ∧
      getAttr (ctxAt (runSet demoRoot 0 "foo" (.num 7)) 0) "foo" = .num 7 ∧
      (ctxAt (runSet (Context.cancel demoRoot 0) 0 "cancelled" (.bool false)) 0).cancelled
        = .bool false ∧
      (Context.set demoRoot 0 "id" (.str "other-id")
          = .ok (runSet demoRoot 0 "id" (.str "other-id"), 0) ∧
        (ctxAt (runSet demoRoot 0 "id" (.str "other-id")) 0).id = .str "other-id")) :=
  ⟨⟨by decide, by decide⟩,
    set_is_unchecked demoRoot 0 "foo" (.num 7) "other-id" (by decide) (by decide)⟩

/-! ### C7: validation -/

theorem newContext_err (s : St) (v : JsV) :
    isErr (newContext s v) = (truthy v && !(isCtxV v)) := by
  unfold newContext
  cases hg : (truthy v && !(isCtxV v))
  · rw [if_neg (by decide)]
    cases v <;> rfl
  · rw [if_pos rfl]
    rfl

theorem withDeadline_err (s : St) (i : Nat) (v : JsV) :
    isErr (Context.withDeadline s i v) = !(isDateV v) := by
  cases v <;> try rfl
  case date t =>
    rw [withDeadline_eq]
    split <;> rfl

theorem withTimeout_err (s : St) (i : Nat) (v : JsV) :
    isErr (Context.withTimeout s i v) = !(isIntV v) := by
  cases v <;> try rfl
  case num n =>
    rw [withTimeout_num, withDeadline_err]
    rfl

theorem withValues_err (s : St) (i : Nat) (v : JsV) :
    isErr (Context.withValues s i v) = !(isObjectLike v) := by
  cases v <;> rfl

theorem set_err (s : St) (i : Nat) (k : String) (v : JsV) :
    isErr (Context.set s i k v) = (decide (k = "id") && !(isStrV v)) := by
  unfold Context.set
  cases hg : (decide (k = "id") && !(isStrV v))
  · rw [if_neg (by decide)]
    rfl
  · rw [if_pos rfl]
    rfl

/-- C7 (amended): each operation raises a synchronous error exactly when its
argument fails the operation's guard — the constructor when a parent is
supplied that is *truthy* and not a context (a falsy non-context argument
such as `0` is treated as no parent and yields a root without error),
`withDeadline` when the deadline is not a `Date`, `withTimeout` when `ms` is
not an integer number, `withValues` when the argument is a primitive rather
than an object, and `set` when a non-string value is assigned under the
`id` key.  Every error is returned instead of a new state, and each guard
runs before any state is built, so a failing call leaves the receiver and
its tree unchanged. -/
theorem validation_exact (s : St) (i : Nat) (v : JsV) (k : String) :
    (isErr (newContext s v) = true ↔ truthy v = true ∧ isCtxV v = false) ∧
    (isErr (Context.withDeadline s i v) = true ↔ isDateV v = false) ∧
    (isErr (Context.withTimeout s i v) = true ↔ isIntV v = false) ∧
    (isErr (Context.withValues s i v) = true ↔ isObjectLike v = false) ∧
    (isErr (Context.set s i k v) = true ↔ k = "id" ∧ isStrV v = false) := by
  refine ⟨?_, ?_, ?_, ?_, ?_⟩
  · rw [newContext_err]; simp
  · rw [withDeadline_err]; simp
  · rw [withTimeout_err]; simp
  · rw [withValues_err]; simp
  · rw [set_err]; simp

/-- C7 as literally stated is false at the constructor: `new Context(0)`
supplies a parent that is not a context, yet raises no error — the falsy
argument is treated as absent and a fresh root comes back. -/
theorem validation_exact_cex :
    isErr (newContext initSt (.num 0)) = false ∧ isCtxV (.num 0) = false ∧
    getOk (newContext initSt (.num 0)) (initSt, 99) = newRoot initSt := by
  refine ⟨by decide, by decide, by decide⟩

/-! ### Object.assign lemmas -/

theorem setEntry_append (o : Obj) (k : String) (v : JsV) (h : ∀ e ∈ o, e.1 ≠ k) :
    setEntry o k v = o ++ [(k, v)] := by
  induction o with
  | nil => rfl
  | cons e tl ih =>
    show (if e.1 = k then (k, v) :: tl else e :: setEntry tl k v) = _
    rw [if_neg (h e (List.mem_cons_self e tl))]
    rw [ih (fun e' he' => h e' (List.mem_cons_of_mem e he'))]
    rfl

theorem assign_cons (a : Obj) (e : String × JsV) (tl : Obj) :
    assign a (e :: tl) = assign (setEntry a e.1 e.2) tl := rfl

theorem lookup_none_of_not_mem (o : Obj) (k : String) (h : ∀ e ∈ o, e.1 ≠ k) :
    List.lookup k o = none := by
  induction o with
  | nil => rfl
  | cons e tl ih =>
    obtain ⟨a1, b1⟩ := e
    rw [lookup_cons_key,
      if_neg (fun hc => h (a1, b1) (List.mem_cons_self _ _) hc.symm)]
    exact ih (fun e' he' => h e' (List.mem_cons_of_mem _ he'))

theorem lookup_assign (b a : Obj) (k : String) (hnd : (b.map Prod.fst).Nodup) :
    List.lookup k (assign a b) = orO (List.lookup k b) (List.lookup k a) := by
  induction b generalizing a with
  | nil => rfl
  | cons e tl ih =>
    obtain ⟨a1, b1⟩ := e
    obtain ⟨hhd, htl⟩ := List.nodup_cons.mp hnd
    rw [assign_cons, ih _ htl, lookup_cons_key, lookup_setEntry]
    by_cases hk : k = a1
    · rw [if_pos hk, if_pos hk]
      have hnone : List.lookup k tl = none := by
        apply lookup_none_of_not_mem
        intro e' he' hc
        apply hhd
        show a1 ∈ List.map Prod.fst tl
        rw [← hk, ← hc]
        exact List.mem_map_of_mem Prod.fst he' 
      rw [hnone]
      rfl
    · rw [if_neg hk, if_neg hk]

theorem assign_eq_append (o : Obj) :
    ∀ (a : Obj), (o.map Prod.fst).Nodup →
      (∀ e ∈ o, ∀ e' ∈ a, e'.1 ≠ e.1) → assign a o = a ++ o := by
  induction o with
  | nil => intro a _ _; simp [assign]
  | cons e tl ih =>
    intro a hnd hdisj
    have hnd' : (e.1 :: List.map Prod.fst tl).Nodup := by
      rw [List.map_cons] at hnd; exact hnd
    obtain ⟨hhd, htl⟩ := List.nodup_cons.mp hnd' 
    rw [assign_cons,
      setEntry_append a e.1 e.2 (fun e' he' => hdisj e (List.mem_cons_self _ _) e' he'),
      ih (a ++ [(e.1, e.2)]) htl ?_]
    · simp
    · intro e2 he2 e' he'
      rcases List.mem_append.mp he' with h | h
      · exact hdisj e2 (List.mem_cons_of_mem _ he2) e' h
      · rw [List.mem_singleton.mp h]
        intro hc
        have hc' : e.1 = e2.1 := hc
        exact hhd (by rw [hc']; exact List.mem_map_of_mem Prod.fst he2)

theorem assign_nil_of_nodup (o : Obj) (hnd : (o.map Prod.fst).Nodup) :
    assign [] o = o := by
  rw [assign_eq_append o [] hnd (by simp)]
  rfl

/-! ### C5: value-store copying is shallow -/

theorem heapWrite_heap (s : St) (a : Nat) (k : String) (v : JsV) :
    (heapWrite s a k v).heap = s.heap.set a (setEntry (s.heap.getD a []) k v) := rfl

/-- C5 (amended): every derivation gives the child a *freshly allocated*
top-level values object — a new address, distinct from the parent's and
from any later sibling's — holding a byvalue copy of the parent's entries,
and a top-level write through the child's object is not observable through
the parent's object nor vice versa.  The copy is only shallow
(`Object.assign`), so nested objects stay shared by reference; the
counterexample shows a nested mutation visible through both contexts. -/
theorem values_copy_is_shallow (s : St) (i a : Nat) (k : String) (w : JsV)
    (hv : (ctxAt s i).values = .obj a) (ha : a < s.heap.length)
    (hnd : ((s.heap.getD a []).map Prod.fst).Nodup) :
    (ctxAt (derive s i).1 (derive s i).2).values = .obj s.heap.length ∧
    s.heap.length ≠ a ∧
    (derive s i).1.heap.getD s.heap.length [] = s.heap.getD a [] ∧
    (heapWrite (derive s i).1 s.heap.length k w).heap.getD a [] =
      (derive s i).1.heap.getD a [] ∧
    (heapWrite (derive s i).1 a k w).heap.getD s.heap.length [] =
      (derive s i).1.heap.getD s.heap.length [] ∧
    (ctxAt (derive (derive s i).1 i).1 (derive (derive s i).1 i).2).values
      = .obj (derive s i).1.heap.length ∧
    (derive s i).1.heap.length ≠ s.heap.length := by
  refine ⟨?_, by omega, ?_, ?_, ?_, ?_, ?_⟩
  · rw [ctxAt_derive_new]; rfl
  · rw [derive_fst_heap, getD_append_len]
    show assign [] (objEntries s (ctxAt s i).values) = _
    rw [hv]
    show assign [] (s.heap.getD a []) = _
    exact assign_nil_of_nodup _ hnd
  · rw [heapWrite_heap, getD_set_ne _ _ _ _ _ (by omega)]
  · rw [heapWrite_heap, getD_set_ne _ _ _ _ _ (by omega)]
  · rw [ctxAt_derive_new]; rfl
  · rw [derive_fst_heap]
    simp

/-- Witness for C5 (amended) on a fresh root (empty values object at
address 0), with a probe write of key `"y"`. -/
theorem values_copy_is_shallow_witness :
    ((ctxAt demoRoot 0).values = .obj 0 ∧ 0 < demoRoot.heap.length ∧
      ((demoRoot.heap.getD 0 []).map Prod.fst).Nodup) ∧
    ((ctxAt (derive demoRoot 0).1 (derive demoRoot 0).2).values
        = .obj demoRoot.heap.length ∧
      demoRoot.heap.length ≠ 0 ∧
      (derive demoRoot 0).1.heap.getD demoRoot.heap.length [] = demoRoot.heap.getD 0 [] ∧
      (heapWrite (derive demoRoot 0).1 demoRoot.heap.length "y" (.num 5)).heap.getD 0 [] =
        (derive demoRoot 0).1.heap.getD 0 [] ∧
      (heapWrite (derive demoRoot 0).1 0 "y" (.num 5)).heap.getD demoRoot.heap.length [] =
        (derive demoRoot 0).1.heap.getD demoRoot.heap.length [] ∧
      (ctxAt (derive (derive demoRoot 0).1 0).1 (derive (derive demoRoot 0).1 0).2).values
        = .obj (derive demoRoot 0).1.heap.length ∧
      (derive demoRoot 0).1.heap.length ≠ demoRoot.heap.length) :=
  ⟨⟨by decide, by decide, by decide⟩,
    values_copy_is_shallow demoRoot 0 0 "y" (.num 5) (by decide) (by decide) (by decide)⟩

/-- C5 as stated — a *deep* copy, no mutation of nested structures
observable through the other context — is false.  In `c5pre`, context 1 is
`root.withValues({a: inner})` with `inner = {x: 1}` and context 2 derives
from it; their top-level values objects are distinct, but both hold the
same reference for key `a`, and after the caller writes `x = 2` through
context 2's reference the change is read through context 1 as well. -/
theorem values_deep_copy_cex :
    (ctxAt c5pre 1).values ≠ (ctxAt c5pre 2).values ∧
    refAt c5pre 2 "a" = refAt c5pre 1 "a" ∧
    nestedLookup c5pre 1 "a" "x" = some (.num 1) ∧
    nestedLookup c5pre 2 "a" "x" = some (.num 1) ∧
    nestedLookup c5post 1 "a" "x" = some (.num 2) ∧
    nestedLookup c5post 2 "a" "x" = some (.num 2) := by
  refine ⟨by decide, by decide, by decide, by decide, by decide, by decide⟩

/-! ### C6: withValues merge semantics -/

theorem derive_fst_heap_len (s : St) (p : Nat) :
    (derive s p).1.heap.length = s.heap.length + 1 := by
  rw [derive_fst_heap]; simp

theorem childOf_values (s : St) (p : Nat) :
    (childOf s p).values = .obj s.heap.length := rfl

theorem withValues_state_snd (s : St) (i b : Nat) :
    (getOk (Context.withValues s i (.obj b)) (s, 0)).2 = s.ctxs.length := by
  rw [withValues_obj_eq]
  rfl

theorem withValues_state_heap (s : St) (i b : Nat) :
    (getOk (Context.withValues s i (.obj b)) (s, 0)).1.heap =
      (derive s i).1.heap ++
        [assign
          (assign [] (objEntries (derive s i).1 (ctxAt (derive s i).1 (derive s i).2).values))
          (objEntries (derive s i).1 (.obj b))] := by
  rw [withValues_obj_eq]
  rfl

theorem withValues_state_ctxs (s : St) (i b : Nat) :
    (getOk (Context.withValues s i (.obj b)) (s, 0)).1.ctxs =
      (derive s i).1.ctxs.set (derive s i).2
        ({ ctxAt (derive s i).1 (derive s i).2 with
            values := .obj (derive s i).1.heap.length }) := by
  rw [withValues_obj_eq]
  rfl

theorem derive_heap_copy (s : St) (i a : Nat)
    (hv : (ctxAt s i).values = .obj a)
    (hnda : ((s.heap.getD a []).map Prod.fst).Nodup) :
    (derive s i).1.heap.getD s.heap.length [] = s.heap.getD a [] := by
  rw [derive_fst_heap, getD_append_len]
  show assign [] (objEntries s (ctxAt s i).values) = _
  rw [hv]
  exact assign_nil_of_nodup _ hnda

/-- C6: `c.withValues(m)` returns a new context (a fresh index, not the
receiver) whose values read as the shallow merge of `c`'s values with `m`,
keys of `m` overriding inherited keys of the same name, and the operation
leaves both `c`'s values object and the supplied object `m` unchanged (the
merge happens in a freshly allocated object). -/
theorem withValues_merge (s : St) (i a b : Nat) (k : String)
    (hv : (ctxAt s i).values = .obj a) (ha : a < s.heap.length)
    (hb : b < s.heap.length) (hi : i < s.ctxs.length)
    (hnda : ((s.heap.getD a []).map Prod.fst).Nodup)
    (hndb : ((s.heap.getD b []).map Prod.fst).Nodup) :
    (getOk (Context.withValues s i (.obj b)) (s, 0)).2 = s.ctxs.length ∧
    (getOk (Context.withValues s i (.obj b)) (s, 0)).2 ≠ i ∧
    valLookup (getOk (Context.withValues s i (.obj b)) (s, 0)).1
        (getOk (Context.withValues s i (.obj b)) (s, 0)).2 k =
      orO (List.lookup k (s.heap.getD b [])) (List.lookup k (s.heap.getD a [])) ∧
    (ctxAt (getOk (Context.withValues s i (.obj b)) (s, 0)).1 i).values = .obj a ∧
    (getOk (Context.withValues s i (.obj b)) (s, 0)).1.heap.getD a [] =
      s.heap.getD a [] ∧
    (getOk (Context.withValues s i (.obj b)) (s, 0)).1.heap.getD b [] =
      s.heap.getD b [] := by
  have hE1 : objEntries (derive s i).1 (ctxAt (derive s i).1 (derive s i).2).values =
      s.heap.getD a [] := by
    rw [ctxAt_derive_new, childOf_values]
    show (derive s i).1.heap.getD s.heap.length [] = _
    exact derive_heap_copy s i a hv hnda
  have hE2 : objEntries (derive s i).1 (.obj b) = s.heap.getD b [] := by
    show (derive s i).1.heap.getD b [] = _
    rw [derive_fst_heap, getD_append_lt _ _ _ _ hb]
  refine ⟨withValues_state_snd s i b, ?_, ?_, ?_, ?_, ?_⟩
  · rw [withValues_state_snd]; omega
  · unfold valLookup lookupO
    rw [withValues_state_snd, ctxAt_eq, withValues_state_ctxs, derive_snd,
      getD_set_self _ _ _ _ (by rw [derive_fst_len]; omega)]
    show List.lookup k
      (objEntries (getOk (Context.withValues s i (.obj b)) (s, 0)).1
        (.obj (derive s i).1.heap.length)) = _
    show List.lookup k
      ((getOk (Context.withValues s i (.obj b)) (s, 0)).1.heap.getD
        (derive s i).1.heap.length []) = _
    rw [withValues_state_heap, getD_append_len, hE1, hE2,
      lookup_assign _ _ k hndb, assign_nil_of_nodup _ hnda]
  · rw [ctxAt_eq, withValues_state_ctxs, derive_snd,
      getD_set_ne _ _ _ _ _ (by omega), ← ctxAt_eq,
      ctxAt_derive_parent s i hi]
    exact hv
  · rw [withValues_state_heap,
      getD_append_lt _ _ _ _ (by rw [derive_fst_heap_len]; omega),
      derive_fst_heap, getD_append_lt _ _ _ _ ha]
  · rw [withValues_state_heap,
      getD_append_lt _ _ _ _ (by rw [derive_fst_heap_len]; omega),
      derive_fst_heap, getD_append_lt _ _ _ _ hb]

/-- Witness for C6 on the spec's own example:
`root.withValues({one:1, two:2}).withValues({two:"a", three:"b"})`,
probing the overridden key `"two"`. -/
theorem withValues_merge_witness :
    ((ctxAt demoVals2.1 1).values = .obj 3 ∧ 3 < demoVals2.1.heap.length ∧
      4 < demoVals2.1.heap.length ∧ 1 < demoVals2.1.ctxs.length ∧
      ((demoVals2.1.heap.getD 3 []).map Prod.fst).Nodup ∧
      ((demoVals2.1.heap.getD 4 []).map Prod.fst).Nodup) ∧
    ((getOk (Context.withValues demoVals2.1 1 (.obj 4)) (demoVals2.1, 0)).2
        = demoVals2.1.ctxs.length ∧
      (getOk (Context.withValues demoVals2.1 1 (.obj 4)) (demoVals2.1, 0)).2 ≠ 1 ∧
      valLookup (getOk (Context.withValues demoVals2.1 1 (.obj 4)) (demoVals2.1, 0)).1
          (getOk (Context.withValues demoVals2.1 1 (.obj 4)) (demoVals2.1, 0)).2 "two" =
        orO (List.lookup "two" (demoVals2.1.heap.getD 4 []))
          (List.lookup "two" (demoVals2.1.heap.getD 3 [])) ∧
      (ctxAt (getOk (Context.withValues demoVals2.1 1 (.obj 4)) (demoVals2.1, 0)).1 1).values
        = .obj 3 ∧
      (getOk (Context.withValues demoVals2.1 1 (.obj 4)) (demoVals2.1, 0)).1.heap.getD 3 [] =
        demoVals2.1.heap.getD 3 [] ∧
      (getOk (Context.withValues demoVals2.1 1 (.obj 4)) (demoVals2.1, 0)).1.heap.getD 4 [] =
        demoVals2.1.heap.getD 4 []) :=
  ⟨⟨by decide, by decide, by decide, by decide, by decide, by decide⟩,
    withValues_merge demoVals2.1 1 3 4 "two" (by decide) (by decide) (by decide)
      (by decide) (by decide) (by decide)⟩

/-! ### C8 and C10: timers and the clock -/

theorem tick_eq (s : St) (d : Nat) :
    tick s d =
      ((s.timers.filter (fun t => decide (t.fireAt ≤ s.now + d))).insertionSort
          (fun a b => a.fireAt ≤ b.fireAt)).foldl
        (fun st t => Context.cancel st t.target)
        { s with
            now := s.now + d,
            timers := s.timers.filter (fun t => !(decide (t.fireAt ≤ s.now + d))) } := rfl

theorem demoWT_state (ms : Nat) : demoWT ms = (wdSt ms ms, 1) := by
  show runWD demoRoot 0 ((0 : Int) + ms) = _
  unfold runWD
  rw [withDeadline_eq,
    if_pos (show adopts demoRoot 0 ((0 : Int) + ms) = true from rfl)]
  simp only [getOk]
  have h2 : (derive demoRoot 0).1.now +
      max (((0 : Int) + ms) - (derive demoRoot 0).1.now) 0 = (ms : Int) := by
    show (0 : Int) + max (((0 : Int) + ms) - 0) 0 = (ms : Int)
    rw [max_eq_left (by omega)]
    omega
  rw [h2]
  have h1 : (0 : Int) + (ms : Int) = (ms : Int) := by omega
  rw [h1]
  rfl

theorem demoWD_state (d : Int) (hd : d ≤ 0) : demoWD d = (wdSt d 0, 1) := by
  unfold demoWD runWD
  rw [withDeadline_eq, if_pos (show adopts demoRoot 0 d = true from rfl)]
  simp only [getOk]
  have h2 : (derive demoRoot 0).1.now +
      max (d - (derive demoRoot 0).1.now) 0 = (0 : Int) := by
    show (0 : Int) + max (d - 0) 0 = (0 : Int)
    rw [max_eq_right (by omega)]
    omega
  rw [h2]
  rfl

theorem tick_wdSt_before (d fire : Int) (t : Nat) (h : ¬(fire ≤ (t : Int))) :
    ctxAt (tick (wdSt d fire) t) 1 = wtChild d := by
  rw [tick_eq]
  have hb : (decide ((Timer.mk fire 0).fireAt ≤ (wdSt d fire).now + (t : Int))) = false := by
    show decide (fire ≤ (0 : Int) + t) = false
    exact decide_eq_false (fun hc => h (by omega))
  have hdue : (wdSt d fire).timers.filter
      (fun tm => decide (tm.fireAt ≤ (wdSt d fire).now + (t : Int))) = [] := by
    show List.filter (fun tm => decide (tm.fireAt ≤ (wdSt d fire).now + (t : Int)))
      [Timer.mk fire 0] = []
    rw [List.filter_cons, hb]
    rfl
  rw [hdue]
  rfl

theorem tick_wdSt_at (d fire : Int) (t : Nat) (h : fire ≤ (t : Int)) :
    ctxAt (tick (wdSt d fire) t) 1 =
      { wtChild d with cancelled := .bool true, emits := 1 } := by
  rw [tick_eq]
  have hb : (decide ((Timer.mk fire 0).fireAt ≤ (wdSt d fire).now + (t : Int))) = true := by
    show decide (fire ≤ (0 : Int) + t) = true
    exact decide_eq_true (by omega)
  have hdue : (wdSt d fire).timers.filter
      (fun tm => decide (tm.fireAt ≤ (wdSt d fire).now + (t : Int))) = [Timer.mk fire 0] := by
    show List.filter (fun tm => decide (tm.fireAt ≤ (wdSt d fire).now + (t : Int)))
      [Timer.mk fire 0] = [Timer.mk fire 0]
    rw [List.filter_cons, hb]
    rfl
  rw [hdue]
  rfl

/-- C8: `withTimeout(ms)` is `withDeadline(new Date(now + ms))`; an adopted
deadline schedules exactly one timer, firing `max(deadline - now, 0)` after
the current instant and targeting the *receiver* (the root, index 0), not
the derived context (index 1); for `c = root.withTimeout(ms)` with `ms > 0`,
at any `t < ms` elapsed `c.cancelled` is still `false` and no `CANCELLED`
notification has been emitted on `c`, while once `ms` has elapsed
`c.cancelled` is `true` and a listener registered on `c` beforehand has
observed exactly one notification (`c.emits = 1`). -/
theorem withTimeout_cancels_at_deadline (ms t : Nat) (s' : St) (i' : Nat) (n dd : Int)
    (hms : 0 < ms) (ht : t < ms) :
    Context.withTimeout s' i' (.num n) = Context.withDeadline s' i' (.date (s'.now + n)) ∧
    (runWD s' i' dd).1.timers =
      s'.timers ++ (if adopts s' i' dd then [⟨s'.now + max (dd - s'.now) 0, i'⟩] else []) ∧
    demoWT ms = (wdSt ms ms, 1) ∧
    (wdSt ms ms).timers = [⟨(ms : Int), 0⟩] ∧
    (ctxAt (tick (wdSt ms ms) t) 1).cancelled = .bool false ∧
    (ctxAt (tick (wdSt ms ms) t) 1).emits = 0 ∧
    (ctxAt (tick (wdSt ms ms) ms) 1).cancelled = .bool true ∧
    (ctxAt (tick (wdSt ms ms) ms) 1).emits = 1 := by
  refine ⟨withTimeout_num s' i' n, runWD_timers s' i' dd, demoWT_state ms, rfl,
    ?_, ?_, ?_, ?_⟩
  · rw [tick_wdSt_before ms ms t (by omega)]
    rfl
  · rw [tick_wdSt_before ms ms t (by omega)]
    rfl
  · rw [tick_wdSt_at ms ms ms (by omega)]
  · rw [tick_wdSt_at ms ms ms (by omega)]

/-- Witness for C8 with `ms = 100`, `t = 99` (the spec's own scenario), and
concrete inputs for the two general conjuncts. -/
theorem withTimeout_cancels_at_deadline_witness :
    (0 < 100 ∧ 99 < 100) ∧
    (Context.withTimeout demoRoot 0 (.num 7)
        = Context.withDeadline demoRoot 0 (.date (demoRoot.now + 7)) ∧
      (runWD demoRoot 0 5).1.timers =
        demoRoot.timers ++
          (if adopts demoRoot 0 5 then [⟨demoRoot.now + max (5 - demoRoot.now) 0, 0⟩] else []) ∧
      demoWT 100 = (wdSt 100 100, 1) ∧
      (wdSt 100 100).timers = [⟨(100 : Int), 0⟩] ∧
      (ctxAt (tick (wdSt 100 100) 99) 1).cancelled = .bool false ∧
      (ctxAt (tick (wdSt 100 100) 99) 1).emits = 0 ∧
      (ctxAt (tick (wdSt 100 100) 100) 1).cancelled = .bool true ∧
      (ctxAt (tick (wdSt 100 100) 100) 1).emits = 1) :=
  ⟨⟨by decide, by decide⟩,
    withTimeout_cancels_at_deadline 100 99 demoRoot 0 7 5 (by decide) (by decide)⟩

/-- C10: `withDeadline` with a date not after the current instant (and
`withTimeout` with a non-positive integer, which is the same call) does not
throw and cancels nothing synchronously: the derived context comes back with
`cancelled = false`, a zero-delay timer (absolute fire time = the current
clock) is scheduled against the receiver, and cancellation happens only when
the event loop later runs that timer. -/
theorem past_deadline_cancels_asynchronously (d : Int) (hd : d ≤ 0) :
    isErr (Context.withDeadline demoRoot 0 (.date d)) = false ∧
    Context.withTimeout demoRoot 0 (.num d) = Context.withDeadline demoRoot 0 (.date d) ∧
    demoWD d = (wdSt d 0, 1) ∧
    (ctxAt (wdSt d 0) 1).cancelled = .bool false ∧
    (wdSt d 0).timers = [⟨(0 : Int), 0⟩] ∧
    (ctxAt (tick (wdSt d 0) 0) 1).cancelled = .bool true ∧
    (ctxAt (tick (wdSt d 0) 0) 1).emits = 1 := by
  refine ⟨?_, ?_, demoWD_state d hd, rfl, rfl, ?_, ?_⟩
  · rw [withDeadline_err]
    rfl
  · rw [withTimeout_num]
    have hnow : demoRoot.now + d = d := by
      show (0 : Int) + d = d
      omega
    rw [hnow]
  · rw [tick_wdSt_at d 0 0 (by omega)]
  · rw [tick_wdSt_at d 0 0 (by omega)]

/-- Witness for C10 at `d = -5` (a deadline five milliseconds in the
past). -/
theorem past_deadline_cancels_asynchronously_witness :
    ((-5 : Int) ≤ 0) ∧
    (isErr (Context.withDeadline demoRoot 0 (.date (-5))) = false ∧
      Context.withTimeout demoRoot 0 (.num (-5))
        = Context.withDeadline demoRoot 0 (.date (-5)) ∧
      demoWD (-5) = (wdSt (-5) 0, 1) ∧
      (ctxAt (wdSt (-5) 0) 1).cancelled = .bool false ∧
      (wdSt (-5) 0).timers = [⟨(0 : Int), 0⟩] ∧
      (ctxAt (tick (wdSt (-5) 0) 0) 1).cancelled = .bool true ∧
      (ctxAt (tick (wdSt (-5) 0) 0) 1).emits = 1) :=
  ⟨by decide, past_deadline_cancels_asynchronously (-5) (by decide)⟩
